import Mathlib

/-!
Shallow embedding of pySTL's robustness evaluation.

The repository has two formula modules, `signal_temporal_logic.py` (a
`Predicate` class, an `STLFormula` class with negation, conjunction,
disjunction, eventually, always and until) and
`pySTL/signal_temporal_logic.py` (the same `STLFormula` class without
until, and no `Predicate`).  Robustness values are modelled as rationals,
signals as finite lists of sample vectors, and a Python evaluation that
can raise is modelled as `Except PyErr`.
-/

/-- The runtime errors a robustness evaluation can raise in Python:
`NameError` (an undefined global is referenced), `ValueError`
(`max`/`min` of an empty sequence), `IndexError` (sequence index out of
range), plus `invalidWindow`, the construction-time error named by the
spec's error taxonomy (never produced by the code). -/
inductive PyErr where
  | nameError
  | valueError
  | indexError
  | invalidWindow
deriving DecidableEq

deriving instance DecidableEq for Except

/-- One sample of a signal: an n-dimensional numeric vector. -/
abbrev Sample := List ℚ

/-- A signal: `T` samples indexed by `0 .. T-1`. -/
abbrev Signal := List Sample

/-- Python's `range(a, b)` over the integers, as the list `[a, a+1, ..., b-1]`
(empty when `b <= a`). -/
def pyRange (a b : ℤ) : List ℤ :=
  (List.range (b - a).toNat).map (fun i : ℕ => a + (i : ℤ))

/-- Evaluating a Python list comprehension left to right: the first
exception raised by an element propagates. -/
def exSeq : List (Except PyErr ℚ) → Except PyErr (List ℚ)
  | [] => .ok []
  | x :: xs =>
    match x with
    | .error e => .error e
    | .ok v =>
      match exSeq xs with
      | .error e => .error e
      | .ok vs => .ok (v :: vs)

/-- The value of Python's `max` on a list of numbers (`none` on the empty
list, where `max` raises `ValueError`). -/
def listMax : List ℚ → Option ℚ
  | [] => none
  | x :: xs =>
    some (match listMax xs with
          | none => x
          | some m => max x m)

/-- The value of Python's `min` on a list of numbers (`none` on the empty
list, where `min` raises `ValueError`). -/
def listMin : List ℚ → Option ℚ
  | [] => none
  | x :: xs =>
    some (match listMin xs with
          | none => x
          | some m => min x m)

/-- Python's `max([...])` applied to a comprehension: elements are
evaluated left to right (first exception propagates), then `max` raises
`ValueError` on an empty list. -/
def pyMax (l : List (Except PyErr ℚ)) : Except PyErr ℚ :=
  match exSeq l with
  | .error e => .error e
  | .ok xs =>
    match listMax xs with
    | none => .error .valueError
    | some m => .ok m

/-- Python's `min([...])` applied to a comprehension, as `pyMax`. -/
def pyMin (l : List (Except PyErr ℚ)) : Except PyErr ℚ :=
  match exSeq l with
  | .error e => .error e
  | .ok xs =>
    match listMin xs with
    | none => .error .valueError
    | some m => .ok m

/-- Python's two-argument `min(x, y)` where evaluating either argument
may raise: arguments are evaluated left to right, the first exception
propagates. -/
def pyMin2 (x y : Except PyErr ℚ) : Except PyErr ℚ :=
  match x with
  | .error e => .error e
  | .ok a =>
    match y with
    | .error e => .error e
    | .ok b => .ok (min a b)

/-- Python's two-argument `max(x, y)` where evaluating either argument
may raise, as `pyMin2`. -/
def pyMax2 (x y : Except PyErr ℚ) : Except PyErr ℚ :=
  match x with
  | .error e => .error e
  | .ok a =>
    match y with
    | .error e => .error e
    | .ok b => .ok (max a b)

/-- Row indexing `s[t, :]` of the `(T, n)` signal array: indices
`0 <= t < T` read directly, `-T <= t < 0` wrap from the end (numpy
semantics), anything else raises `IndexError`. -/
def pyGet (s : Signal) (t : ℤ) : Except PyErr Sample :=
  if h : 0 ≤ t ∧ t < (s.length : ℤ) then
    .ok (s.get ⟨t.toNat, by omega⟩)
  else if h2 : -(s.length : ℤ) ≤ t ∧ t < 0 then
    .ok (s.get ⟨(t + s.length).toNat, by omega⟩)
  else
    .error .indexError

/-- The mathematical maximum of `f` over the closed integer interval
`[a, b]` (junk value `0` when the interval is empty). -/
def intervalMax (f : ℤ → ℚ) (a b : ℤ) : ℚ :=
  if h : a ≤ b then
    (Finset.Icc a b).sup' (Finset.nonempty_Icc.mpr h) f
  else 0

/-- The mathematical minimum of `f` over the closed integer interval
`[a, b]` (junk value `0` when the interval is empty). -/
def intervalMin (f : ℤ → ℚ) (a b : ℤ) : ℚ :=
  if h : a ≤ b then
    (Finset.Icc a b).inf' (Finset.nonempty_Icc.mpr h) f
  else 0

namespace SignalTemporalLogic

/-- `Predicate` from `signal_temporal_logic.py`: a measurement function
`mu : R^n -> R` and a threshold `c`. -/
structure Predicate where
  mu : Sample → ℚ
  c : ℚ

/-- `Predicate.robustness` as written in the source: its body is
`return mu(s[t,:]) - c`, referencing the module-level names `mu` and `c`,
which are never defined (the fields are `self.mu` and `self.c`); every
call therefore raises `NameError`. -/
def Predicate.robustness (_p : Predicate) (_s : Signal) (_t : ℤ) : Except PyErr ℚ :=
  .error .nameError

/-- Modelled from the spec: the documented contract of
`Predicate.robustness`, `measurement_function(signal[t]) - threshold`
(the source body instead references undefined globals, see
`Predicate.robustness`). -/
def Predicate.intendedRobustness (p : Predicate) (s : Signal) (t : ℤ) : Except PyErr ℚ :=
  (pyGet s t).map (fun v => p.mu v - p.c)

/-- `STLFormula` from `signal_temporal_logic.py`: a node holding its
robustness function from signal and time to a scalar. -/
structure STLFormula where
  robustness : Signal → ℤ → Except PyErr ℚ

/-- `STLFormula.negation`: `lambda s, t : - self.robustness(s,t)`. -/
def STLFormula.negation (φ : STLFormula) : STLFormula :=
  ⟨fun s t => (φ.robustness s t).map (fun x => -x)⟩

/-- `STLFormula.conjunction`:
`lambda s, t : min(self.robustness(s,t), second_formula.robustness(s,t))`. -/
def STLFormula.conjunction (φ ψ : STLFormula) : STLFormula :=
  ⟨fun s t => pyMin2 (φ.robustness s t) (ψ.robustness s t)⟩

/-- `STLFormula.disjunction`:
`lambda s, t : max(self.robustness(s,t), second_formula.robustness(s,t))`. -/
def STLFormula.disjunction (φ ψ : STLFormula) : STLFormula :=
  ⟨fun s t => pyMax2 (φ.robustness s t) (ψ.robustness s t)⟩

/-- `STLFormula.eventually`:
`lambda s, t : max([self.robustness(s,k) for k in range(t+t1, t+t2+1)])`. -/
def STLFormula.eventually (φ : STLFormula) (t1 t2 : ℤ) : STLFormula :=
  ⟨fun s t => pyMax ((pyRange (t + t1) (t + t2 + 1)).map (φ.robustness s))⟩

/-- `STLFormula.always`:
`lambda s, t : min([self.robustness(s,k) for k in range(t+t1, t+t2+1)])`. -/
def STLFormula.always (φ : STLFormula) (t1 t2 : ℤ) : STLFormula :=
  ⟨fun s t => pyMin ((pyRange (t + t1) (t + t2 + 1)).map (φ.robustness s))⟩

/-- `STLFormula.until`:
`max([min([self.robustness(s,tp), min([second_formula.robustness(s,tpp)
for tpp in range(t, tp+1)])]) for tp in range(t+t1, t+t2+1)])`;
the two-element `min([...])` evaluates `self.robustness(s,tp)` first,
then the inner comprehension. -/
def STLFormula.until (φ ψ : STLFormula) (t1 t2 : ℤ) : STLFormula :=
  ⟨fun s t => pyMax ((pyRange (t + t1) (t + t2 + 1)).map (fun tp =>
    pyMin2 (φ.robustness s tp)
      (pyMin ((pyRange t (tp + 1)).map (ψ.robustness s)))))⟩

/-- The Python call `phi.eventually(t1, t2)` as an expression that could
raise: the source constructor performs no validation, so it always
returns the formula. -/
def STLFormula.eventuallyCall (φ : STLFormula) (t1 t2 : ℤ) : Except PyErr STLFormula :=
  .ok (φ.eventually t1 t2)

/-- The Python call `phi.always(t1, t2)` as an expression that could
raise: the source constructor performs no validation, so it always
returns the formula. -/
def STLFormula.alwaysCall (φ : STLFormula) (t1 t2 : ℤ) : Except PyErr STLFormula :=
  .ok (φ.always t1 t2)

/-- The Python call `phi1.until(phi2, t1, t2)` as an expression that
could raise: the source constructor performs no validation, so it always
returns the formula. -/
def STLFormula.untilCall (φ ψ : STLFormula) (t1 t2 : ℤ) : Except PyErr STLFormula :=
  .ok (φ.until ψ t1 t2)

end SignalTemporalLogic

namespace PySTL

/-- `STLFormula` from `pySTL/signal_temporal_logic.py`: the same node
shape as in `signal_temporal_logic.py`. -/
structure STLFormula where
  robustness : Signal → ℤ → Except PyErr ℚ

/-- `STLFormula.negation` from `pySTL/signal_temporal_logic.py`. -/
def STLFormula.negation (φ : STLFormula) : STLFormula :=
  ⟨fun s t => (φ.robustness s t).map (fun x => -x)⟩

/-- `STLFormula.conjunction` from `pySTL/signal_temporal_logic.py`. -/
def STLFormula.conjunction (φ ψ : STLFormula) : STLFormula :=
  ⟨fun s t => pyMin2 (φ.robustness s t) (ψ.robustness s t)⟩

/-- `STLFormula.disjunction` from `pySTL/signal_temporal_logic.py`. -/
def STLFormula.disjunction (φ ψ : STLFormula) : STLFormula :=
  ⟨fun s t => pyMax2 (φ.robustness s t) (ψ.robustness s t)⟩

/-- `STLFormula.eventually` from `pySTL/signal_temporal_logic.py`. -/
def STLFormula.eventually (φ : STLFormula) (t1 t2 : ℤ) : STLFormula :=
  ⟨fun s t => pyMax ((pyRange (t + t1) (t + t2 + 1)).map (φ.robustness s))⟩

/-- `STLFormula.always` from `pySTL/signal_temporal_logic.py`. -/
def STLFormula.always (φ : STLFormula) (t1 t2 : ℤ) : STLFormula :=
  ⟨fun s t => pyMin ((pyRange (t + t1) (t + t2 + 1)).map (φ.robustness s))⟩

end PySTL

/-- A construction recipe over the operations defined by both formula
modules: a leaf robustness function composed through negation,
conjunction, disjunction, eventually and always. -/
inductive FormulaExpr where
  | leaf (f : Signal → ℤ → Except PyErr ℚ)
  | neg (e : FormulaExpr)
  | conj (e1 e2 : FormulaExpr)
  | disj (e1 e2 : FormulaExpr)
  | ev (e : FormulaExpr) (t1 t2 : ℤ)
  | alw (e : FormulaExpr) (t1 t2 : ℤ)

/-- Build a recipe with the `STLFormula` class of `signal_temporal_logic.py`. -/
def buildA : FormulaExpr → SignalTemporalLogic.STLFormula
  | .leaf f => ⟨f⟩
  | .neg e => (buildA e).negation
  | .conj e1 e2 => (buildA e1).conjunction (buildA e2)
  | .disj e1 e2 => (buildA e1).disjunction (buildA e2)
  | .ev e t1 t2 => (buildA e).eventually t1 t2
  | .alw e t1 t2 => (buildA e).always t1 t2

/-- Build a recipe with the `STLFormula` class of `pySTL/signal_temporal_logic.py`. -/
def buildB : FormulaExpr → PySTL.STLFormula
  | .leaf f => ⟨f⟩
  | .neg e => (buildB e).negation
  | .conj e1 e2 => (buildB e1).conjunction (buildB e2)
  | .disj e1 e2 => (buildB e1).disjunction (buildB e2)
  | .ev e t1 t2 => (buildB e).eventually t1 t2
  | .alw e t1 t2 => (buildB e).always t1 t2

/-! ### Concrete formulas and signals used in scenarios -/

/-- The Scenario A signal `[[0],[2],[4],[5]]`. -/
def sigA : Signal := [[0], [2], [4], [5]]

/-- The Scenario A predicate `x - 3 >= 0`: measurement is the sample's
first coordinate, threshold `3`. -/
def predA : SignalTemporalLogic.Predicate := ⟨fun v => v.headD 0, 3⟩

/-- A leaf formula built the way `example.py` builds leaves, from a raw
robustness lambda: here one whose value is the time index itself. -/
def idLeaf : SignalTemporalLogic.STLFormula := ⟨fun _ t => .ok (t : ℚ)⟩

/-- A leaf formula with constant robustness `5`, reading no signal sample. -/
def constLeaf : SignalTemporalLogic.STLFormula := ⟨fun _ _ => .ok 5⟩

/-- A leaf formula in the style of `example.py`
(`STLFormula(lambda s, t : s[t,0] - xmin)` etc.): it reads the sample
`s[t]` and applies a scalar function to it. -/
def sampleLeaf (g : Sample → ℚ) : SignalTemporalLogic.STLFormula :=
  ⟨fun s t => (pyGet s t).map g⟩

/-! ### Helper lemmas -/

theorem pyRange_eq_nil {a b : ℤ} (h : b ≤ a) : pyRange a b = [] := by
  have : (b - a).toNat = 0 := by omega
  simp [pyRange, this]

theorem pyRange_cons {a b : ℤ} (h : a < b) : pyRange a b = a :: pyRange (a + 1) b := by
  have h1 : (b - a).toNat = (b - (a + 1)).toNat + 1 := by omega
  rw [pyRange, pyRange, h1, List.range_succ_eq_map, List.map_cons, List.map_map]
  congr 1
  · norm_num
  · apply List.map_congr_left
    intro i _
    simp [Function.comp, Nat.succ_eq_add_one]
    ring

theorem mem_pyRange {a b k : ℤ} : k ∈ pyRange a b ↔ a ≤ k ∧ k < b := by
  simp only [pyRange, List.mem_map, List.mem_range]
  constructor
  · rintro ⟨i, hi, rfl⟩
    omega
  · intro hk
    exact ⟨(k - a).toNat, by omega, by omega⟩

theorem exSeq_map_ok (f : ℤ → ℚ) (l : List ℤ) :
    exSeq (l.map (fun k => Except.ok (f k))) = .ok (l.map f) := by
  induction l with
  | nil => rfl
  | cons x xs ih => simp [exSeq, ih]

theorem intervalMax_cons (f : ℤ → ℚ) {a b : ℤ} (h : a < b) :
    intervalMax f a b = max (f a) (intervalMax f (a + 1) b) := by
  have h1 : a ≤ b := le_of_lt h
  have h2 : a + 1 ≤ b := h
  unfold intervalMax
  rw [dif_pos h1, dif_pos h2]
  apply le_antisymm
  · apply Finset.sup'_le
    intro k hk
    rw [Finset.mem_Icc] at hk
    rcases eq_or_lt_of_le hk.1 with rfl | hlt
    · exact le_max_left _ _
    · exact le_trans (Finset.le_sup' f (Finset.mem_Icc.mpr ⟨by omega, hk.2⟩))
        (le_max_right _ _)
  · apply max_le
    · exact Finset.le_sup' f (Finset.mem_Icc.mpr ⟨le_refl a, h1⟩)
    · apply Finset.sup'_le
      intro k hk
      rw [Finset.mem_Icc] at hk
      exact Finset.le_sup' f (Finset.mem_Icc.mpr ⟨by omega, hk.2⟩)

theorem intervalMin_cons (f : ℤ → ℚ) {a b : ℤ} (h : a < b) :
    intervalMin f a b = min (f a) (intervalMin f (a + 1) b) := by
  have h1 : a ≤ b := le_of_lt h
  have h2 : a + 1 ≤ b := h
  unfold intervalMin
  rw [dif_pos h1, dif_pos h2]
  apply le_antisymm
  · apply le_min
    · exact Finset.inf'_le f (Finset.mem_Icc.mpr ⟨le_refl a, h1⟩)
    · apply Finset.le_inf'
      intro k hk
      rw [Finset.mem_Icc] at hk
      exact Finset.inf'_le f (Finset.mem_Icc.mpr ⟨by omega, hk.2⟩)
  · apply Finset.le_inf'
    intro k hk
    rw [Finset.mem_Icc] at hk
    rcases eq_or_lt_of_le hk.1 with rfl | hlt
    · exact min_le_left _ _
    · exact le_trans (min_le_right _ _)
        (Finset.inf'_le f (Finset.mem_Icc.mpr ⟨by omega, hk.2⟩))

theorem intervalMax_self (f : ℤ → ℚ) (a : ℤ) : intervalMax f a a = f a := by
  simp [intervalMax]

theorem intervalMin_self (f : ℤ → ℚ) (a : ℤ) : intervalMin f a a = f a := by
  simp [intervalMin]

theorem listMax_map_range (f : ℤ → ℚ) :
    ∀ (n : ℕ) (a : ℤ), listMax ((pyRange a (a + n + 1)).map f) = some (intervalMax f a (a + n)) := by
  intro n
  induction n with
  | zero =>
    intro a
    rw [show a + ((0 : ℕ) : ℤ) + 1 = a + 1 by norm_num,
      pyRange_cons (by omega), pyRange_eq_nil (by omega)]
    simp [listMax, intervalMax_self]
  | succ n ih =>
    intro a
    have hco : a + ((n + 1 : ℕ) : ℤ) + 1 = (a + 1) + (n : ℕ) + 1 := by push_cast; ring
    have hco2 : a + ((n + 1 : ℕ) : ℤ) = a + 1 + (n : ℕ) := by push_cast; ring
    rw [hco, pyRange_cons (by omega), List.map_cons, listMax, ih (a + 1), hco2,
      intervalMax_cons f (show a < a + 1 + (n : ℕ) by omega)]

theorem listMin_map_range (f : ℤ → ℚ) :
    ∀ (n : ℕ) (a : ℤ), listMin ((pyRange a (a + n + 1)).map f) = some (intervalMin f a (a + n)) := by
  intro n
  induction n with
  | zero =>
    intro a
    rw [show a + ((0 : ℕ) : ℤ) + 1 = a + 1 by norm_num,
      pyRange_cons (by omega), pyRange_eq_nil (by omega)]
    simp [listMin, intervalMin_self]
  | succ n ih =>
    intro a
    have hco : a + ((n + 1 : ℕ) : ℤ) + 1 = (a + 1) + (n : ℕ) + 1 := by push_cast; ring
    have hco2 : a + ((n + 1 : ℕ) : ℤ) = a + 1 + (n : ℕ) := by push_cast; ring
    rw [hco, pyRange_cons (by omega), List.map_cons, listMin, ih (a + 1), hco2,
      intervalMin_cons f (show a < a + 1 + (n : ℕ) by omega)]

theorem pyMax_range (f : ℤ → ℚ) {a b : ℤ} (hab : a ≤ b) :
    pyMax ((pyRange a (b + 1)).map (fun k => Except.ok (f k))) = .ok (intervalMax f a b) := by
  obtain ⟨n, rfl⟩ : ∃ n : ℕ, b = a + n := ⟨(b - a).toNat, by omega⟩
  simp only [pyMax, exSeq_map_ok, listMax_map_range]

theorem pyMin_range (f : ℤ → ℚ) {a b : ℤ} (hab : a ≤ b) :
    pyMin ((pyRange a (b + 1)).map (fun k => Except.ok (f k))) = .ok (intervalMin f a b) := by
  obtain ⟨n, rfl⟩ : ∃ n : ℕ, b = a + n := ⟨(b - a).toNat, by omega⟩
  simp only [pyMin, exSeq_map_ok, listMin_map_range]

theorem exSeq_map_neg (l : List (Except PyErr ℚ)) :
    exSeq (l.map (Except.map (fun x => -x))) = (exSeq l).map (List.map (fun x => -x)) := by
  induction l with
  | nil => rfl
  | cons x xs ih =>
    cases x with
    | error e => simp [exSeq, Except.map]
    | ok v =>
      simp only [List.map_cons, exSeq, Except.map, ih]
      cases exSeq xs with
      | error e => simp [Except.map]
      | ok vs => simp [Except.map]

theorem listMax_map_neg (l : List ℚ) :
    listMax (l.map (fun x => -x)) = (listMin l).map (fun x => -x) := by
  induction l with
  | nil => rfl
  | cons x xs ih =>
    simp only [List.map_cons, listMax, listMin, ih]
    cases listMin xs with
    | none => simp
    | some m => simp [max_neg_neg]

theorem pyMax_map_neg (l : List (Except PyErr ℚ)) :
    pyMax (l.map (Except.map (fun x => -x))) = (pyMin l).map (fun x => -x) := by
  rw [pyMax, pyMin, exSeq_map_neg]
  cases exSeq l with
  | error e => simp [Except.map]
  | ok xs =>
    simp only [Except.map, listMax_map_neg]
    cases listMin xs with
    | none => simp
    | some m => simp

theorem exSeq_err (l : List (Except PyErr ℚ)) (e : PyErr)
    (hall : ∀ x ∈ l, x = .error e ∨ ∃ q, x = .ok q)
    (hmem : Except.error e ∈ l) : exSeq l = .error e := by
  induction l with
  | nil => simp at hmem
  | cons x xs ih =>
    rcases hall x (List.mem_cons_self x xs) with hx | ⟨q, hx⟩
    · rw [hx]; rfl
    · subst hx
      have hmem2 : Except.error e ∈ xs := by
        rcases List.mem_cons.mp hmem with h | h
        · exact absurd h.symm (by simp)
        · exact h
      have := ih (fun y hy => hall y (List.mem_cons_of_mem _ hy)) hmem2
      simp [exSeq, this]

theorem pyGet_shape (s : Signal) (t : ℤ) :
    pyGet s t = .error .indexError ∨ ∃ v, pyGet s t = .ok v := by
  unfold pyGet
  split
  · exact Or.inr ⟨_, rfl⟩
  · split
    · exact Or.inr ⟨_, rfl⟩
    · exact Or.inl rfl

theorem pyGet_err_of_ge (s : Signal) (t : ℤ) (h : (s.length : ℤ) ≤ t) :
    pyGet s t = .error .indexError := by
  unfold pyGet
  rw [dif_neg (by omega), dif_neg (by omega)]

theorem intervalMin_anti (f : ℤ → ℚ) {a b a' b' : ℤ}
    (ha : a' ≤ a) (hab : a ≤ b) (hb : b ≤ b') :
    intervalMin f a' b' ≤ intervalMin f a b := by
  unfold intervalMin
  rw [dif_pos (by omega), dif_pos hab]
  apply Finset.le_inf'
  intro k hk
  rw [Finset.mem_Icc] at hk
  exact Finset.inf'_le f (Finset.mem_Icc.mpr ⟨by omega, by omega⟩)

theorem intervalMax_mono (f : ℤ → ℚ) {a b a' b' : ℤ}
    (ha : a' ≤ a) (hab : a ≤ b) (hb : b ≤ b') :
    intervalMax f a b ≤ intervalMax f a' b' := by
  unfold intervalMax
  rw [dif_pos hab, dif_pos (show a' ≤ b' by omega)]
  apply Finset.sup'_le
  intro k hk
  rw [Finset.mem_Icc] at hk
  exact Finset.le_sup' f (Finset.mem_Icc.mpr ⟨by omega, by omega⟩)

/-! ### Claims -/

/-- C1: the spec says `Predicate.robustness(signal, t)` returns
`measurement_function(signal[t]) - threshold`, and in Scenario A
(measurement `x`, threshold `3`, signal `[[0],[2],[4],[5]]`) gives `1`
at `t = 2` and `-3` at `t = 0`.  The source body instead references the
undefined module globals `mu` and `c`, so every call raises `NameError`;
the documented values are what the intended body would return. -/
theorem predicate_robustness_name_error :
    predA.robustness sigA 2 = .error .nameError ∧
    predA.robustness sigA 0 = .error .nameError ∧
    predA.intendedRobustness sigA 2 = .ok 1 ∧
    predA.intendedRobustness sigA 0 = .ok (-3) := by
  refine ⟨rfl, rfl, ?_, ?_⟩
  · have h : pyGet sigA 2 = .ok [4] := by decide
    norm_num [SignalTemporalLogic.Predicate.intendedRobustness, h, Except.map, predA]
  · have h : pyGet sigA 0 = .ok [0] := by decide
    norm_num [SignalTemporalLogic.Predicate.intendedRobustness, h, Except.map, predA]

/-- C3 counterexample: calling `eventually` with `t1 = 2 > 1 = t2` does
not fail with `InvalidWindow` at construction; the constructor returns a
formula object. -/
theorem constructor_no_invalid_window_cex :
    idLeaf.eventuallyCall 2 1 ≠ Except.error PyErr.invalidWindow := by
  simp [SignalTemporalLogic.STLFormula.eventuallyCall]

/-- C3 (amended): the temporal-operator constructors perform no window
validation at all: for any bounds with `t1 > t2` or a negative bound,
`eventually`, `always` and `until` return a formula object and raise no
`InvalidWindow` error; a `t1 > t2` window only surfaces later, when
robustness is evaluated, as an empty-sequence `ValueError`. -/
theorem constructors_no_window_validation
    (φ ψ : SignalTemporalLogic.STLFormula) (t1 t2 : ℤ)
    (hbad : t2 < t1 ∨ t1 < 0 ∨ t2 < 0) :
    φ.eventuallyCall t1 t2 = .ok (φ.eventually t1 t2) ∧
    φ.alwaysCall t1 t2 = .ok (φ.always t1 t2) ∧
    φ.untilCall ψ t1 t2 = .ok (φ.until ψ t1 t2) ∧
    (t2 < t1 → ∀ s t, (φ.eventually t1 t2).robustness s t = .error .valueError) := by
  refine ⟨rfl, rfl, rfl, fun h s t => ?_⟩
  show pyMax ((pyRange (t + t1) (t + t2 + 1)).map (φ.robustness s)) = _
  rw [pyRange_eq_nil (by omega)]
  rfl

theorem constructors_no_window_validation_witness :
    idLeaf.eventuallyCall 2 1 = .ok (idLeaf.eventually 2 1) ∧
    idLeaf.alwaysCall 2 1 = .ok (idLeaf.always 2 1) ∧
    idLeaf.untilCall constLeaf 2 1 = .ok (idLeaf.until constLeaf 2 1) ∧
    ((1 : ℤ) < 2 → ∀ s t, (idLeaf.eventually 2 1).robustness s t = .error .valueError) :=
  constructors_no_window_validation idLeaf constLeaf 2 1 (Or.inl (by norm_num))

/-- C4 counterexample: `always(φ, 0, 10)` evaluated at `t = 0` on the
four-sample signal `sigA` (so `t + t2 = 10 >= T = 4`) does not fail when
`φ` is a formula whose robustness function reads no signal sample: it
returns `5`.  The claim's "for every formula phi ... fails with an
explicitly raised IndexOutOfRange error" is therefore false. -/
theorem always_out_of_range_no_error_cex :
    (constLeaf.always 0 10).robustness sigA 0 = .ok 5 := rfl

/-- C4 (amended): no explicit window/index guard exists; the failure for
`t + t2 >= T` is the `IndexError` propagated from the out-of-range
signal access itself, so it occurs exactly when the formula's robustness
function actually reads the signal at the out-of-range index.  For a
leaf that reads `s[t]` (the style of every predicate-like leaf in
`example.py`), `always(φ, t1, t2)` at a base time `0 <= t` with
`0 <= t1 <= t2` and `t + t2 >= T` fails with that propagated
`IndexError`. -/
theorem always_out_of_range_index_error (g : Sample → ℚ) (s : Signal) (t t1 t2 : ℤ)
    (h0 : 0 ≤ t) (h1 : 0 ≤ t1) (h12 : t1 ≤ t2) (hT : (s.length : ℤ) ≤ t + t2) :
    ((sampleLeaf g).always t1 t2).robustness s t = .error .indexError := by
  show pyMin ((pyRange (t + t1) (t + t2 + 1)).map (fun k => (pyGet s k).map g)) = _
  have hseq : exSeq ((pyRange (t + t1) (t + t2 + 1)).map (fun k => (pyGet s k).map g))
      = .error .indexError := by
    apply exSeq_err
    · intro x hx
      rcases List.mem_map.mp hx with ⟨k, _, rfl⟩
      rcases pyGet_shape s k with hsh | ⟨v, hsh⟩
      · rw [hsh]; exact Or.inl rfl
      · rw [hsh]; exact Or.inr ⟨g v, rfl⟩
    · apply List.mem_map.mpr
      refine ⟨t + t2, mem_pyRange.mpr ⟨by omega, by omega⟩, ?_⟩
      rw [pyGet_err_of_ge s (t + t2) hT]
      rfl
  rw [pyMin, hseq]

theorem always_out_of_range_index_error_witness :
    ((sampleLeaf (fun v => v.headD 0)).always 0 10).robustness sigA 0 = .error .indexError :=
  always_out_of_range_index_error (fun v => v.headD 0) sigA 0 0 10
    (by norm_num) (by norm_num) (by norm_num) (by norm_num [sigA])

/-- C10: for `t1 > t2` the `eventually` and `always` constructors (in
both modules) return a formula object without signaling any error, and
evaluating that formula's robustness on any signal at any base time
fails with the `ValueError` of `max`/`min` over an empty sequence —
the result is the same for every signal, so no signal sample is read. -/
theorem empty_window_value_error (φ : SignalTemporalLogic.STLFormula)
    (ψ : PySTL.STLFormula) (t1 t2 : ℤ) (h : t2 < t1) (s : Signal) (t : ℤ) :
    φ.eventuallyCall t1 t2 = .ok (φ.eventually t1 t2) ∧
    φ.alwaysCall t1 t2 = .ok (φ.always t1 t2) ∧
    (φ.eventually t1 t2).robustness s t = .error .valueError ∧
    (φ.always t1 t2).robustness s t = .error .valueError ∧
    (ψ.eventually t1 t2).robustness s t = .error .valueError ∧
    (ψ.always t1 t2).robustness s t = .error .valueError := by
  refine ⟨rfl, rfl, ?_, ?_, ?_, ?_⟩
  · show pyMax ((pyRange (t + t1) (t + t2 + 1)).map (φ.robustness s)) = _
    rw [pyRange_eq_nil (by omega)]; rfl
  · show pyMin ((pyRange (t + t1) (t + t2 + 1)).map (φ.robustness s)) = _
    rw [pyRange_eq_nil (by omega)]; rfl
  · show pyMax ((pyRange (t + t1) (t + t2 + 1)).map (ψ.robustness s)) = _
    rw [pyRange_eq_nil (by omega)]; rfl
  · show pyMin ((pyRange (t + t1) (t + t2 + 1)).map (ψ.robustness s)) = _
    rw [pyRange_eq_nil (by omega)]; rfl

theorem empty_window_value_error_witness :
    idLeaf.eventuallyCall 2 1 = .ok (idLeaf.eventually 2 1) ∧
    idLeaf.alwaysCall 2 1 = .ok (idLeaf.always 2 1) ∧
    (idLeaf.eventually 2 1).robustness sigA 0 = .error .valueError ∧
    (idLeaf.always 2 1).robustness sigA 0 = .error .valueError ∧
    ((⟨idLeaf.robustness⟩ : PySTL.STLFormula).eventually 2 1).robustness sigA 0 = .error .valueError ∧
    ((⟨idLeaf.robustness⟩ : PySTL.STLFormula).always 2 1).robustness sigA 0 = .error .valueError :=
  empty_window_value_error idLeaf ⟨idLeaf.robustness⟩ 2 1 (by norm_num) sigA 0

/-- C8: Always/Eventually duality.  For every formula, window and
evaluation point, `negate(always(φ, t1, t2))` and
`eventually(negate(φ), t1, t2)` compute the same robustness — here
proved with no side conditions at all: the two evaluations agree also
in which error they raise when evaluation is undefined. -/
theorem always_eventually_duality (φ : SignalTemporalLogic.STLFormula)
    (t1 t2 : ℤ) (s : Signal) (t : ℤ) :
    ((φ.always t1 t2).negation).robustness s t =
      ((φ.negation).eventually t1 t2).robustness s t := by
  show (pyMin ((pyRange (t + t1) (t + t2 + 1)).map (φ.robustness s))).map (fun x => -x) =
    pyMax ((pyRange (t + t1) (t + t2 + 1)).map (fun k => (φ.robustness s k).map (fun x => -x)))
  rw [← pyMax_map_neg, List.map_map]
  rfl

/-- C7: the two formula modules are near-duplicates.  Any formula built
from a leaf robustness function by the operations both `STLFormula`
classes define (negation, conjunction, disjunction, eventually, always)
evaluates to the same robustness result under
`signal_temporal_logic.py`'s class and `pySTL/signal_temporal_logic.py`'s
class, on every signal and time. -/
theorem modules_equivalent (e : FormulaExpr) (s : Signal) (t : ℤ) :
    (buildA e).robustness s t = (buildB e).robustness s t := by
  induction e generalizing s t with
  | leaf f => rfl
  | neg e ih =>
    show ((buildA e).robustness s t).map _ = ((buildB e).robustness s t).map _
    rw [ih s t]
  | conj e1 e2 ih1 ih2 =>
    show pyMin2 ((buildA e1).robustness s t) ((buildA e2).robustness s t) = _
    rw [ih1 s t, ih2 s t]
    rfl
  | disj e1 e2 ih1 ih2 =>
    show pyMax2 ((buildA e1).robustness s t) ((buildA e2).robustness s t) = _
    rw [ih1 s t, ih2 s t]
    rfl
  | ev e t1 t2 ih =>
    have h : (buildA e).robustness = (buildB e).robustness :=
      funext fun s => funext fun t => ih s t
    show pyMax ((pyRange (t + t1) (t + t2 + 1)).map ((buildA e).robustness s)) = _
    rw [h]
    rfl
  | alw e t1 t2 ih =>
    have h : (buildA e).robustness = (buildB e).robustness :=
      funext fun s => funext fun t => ih s t
    show pyMin ((pyRange (t + t1) (t + t2 + 1)).map ((buildA e).robustness s)) = _
    rw [h]
    rfl

theorem eventually_eq_max_aux (φ : SignalTemporalLogic.STLFormula)
    (t1 t2 t : ℤ) (s : Signal) (f : ℤ → ℚ) (h12 : t1 ≤ t2)
    (hdef : ∀ k, t + t1 ≤ k → k ≤ t + t2 → φ.robustness s k = .ok (f k)) :
    (φ.eventually t1 t2).robustness s t = .ok (intervalMax f (t + t1) (t + t2)) := by
  have hmap : (pyRange (t + t1) (t + t2 + 1)).map (φ.robustness s) =
      (pyRange (t + t1) (t + t2 + 1)).map (fun k => Except.ok (f k)) := by
    apply List.map_congr_left
    intro k hk
    rcases mem_pyRange.mp hk with ⟨hk1, hk2⟩
    exact hdef k hk1 (by omega)
  show pyMax ((pyRange (t + t1) (t + t2 + 1)).map (φ.robustness s)) = _
  rw [hmap, pyMax_range f (by omega)]

theorem always_eq_min_aux (φ : SignalTemporalLogic.STLFormula)
    (t1 t2 t : ℤ) (s : Signal) (f : ℤ → ℚ) (h12 : t1 ≤ t2)
    (hdef : ∀ k, t + t1 ≤ k → k ≤ t + t2 → φ.robustness s k = .ok (f k)) :
    (φ.always t1 t2).robustness s t = .ok (intervalMin f (t + t1) (t + t2)) := by
  have hmap : (pyRange (t + t1) (t + t2 + 1)).map (φ.robustness s) =
      (pyRange (t + t1) (t + t2 + 1)).map (fun k => Except.ok (f k)) := by
    apply List.map_congr_left
    intro k hk
    rcases mem_pyRange.mp hk with ⟨hk1, hk2⟩
    exact hdef k hk1 (by omega)
  show pyMin ((pyRange (t + t1) (t + t2 + 1)).map (φ.robustness s)) = _
  rw [hmap, pyMin_range f (by omega)]

/-- C5: when `0 <= t1 <= t2` and the child formula's robustness is
defined (returns a value `f k`) at every index of the window
`[t+t1, t+t2]`, `eventually(φ, t1, t2).robustness(s, t)` equals the
maximum of `f` over that closed interval. -/
theorem eventually_robustness_eq_max (φ : SignalTemporalLogic.STLFormula)
    (t1 t2 t : ℤ) (s : Signal) (f : ℤ → ℚ)
    (h0 : 0 ≤ t1) (h12 : t1 ≤ t2)
    (hdef : ∀ k, t + t1 ≤ k → k ≤ t + t2 → φ.robustness s k = .ok (f k)) :
    (φ.eventually t1 t2).robustness s t = .ok (intervalMax f (t + t1) (t + t2)) :=
  eventually_eq_max_aux φ t1 t2 t s f h12 hdef

theorem eventually_robustness_eq_max_witness :
    (idLeaf.eventually 0 2).robustness sigA 1 = .ok (intervalMax (fun k => (k : ℚ)) 1 3) :=
  eventually_robustness_eq_max idLeaf 0 2 1 sigA (fun k => (k : ℚ))
    (by norm_num) (by norm_num) (fun k _ _ => rfl)

/-- C6: when `0 <= t1 <= t2` and the child formula's robustness is
defined at every index of the window `[t+t1, t+t2]`,
`always(φ, t1, t2).robustness(s, t)` equals the minimum of those values
over that closed interval. -/
theorem always_robustness_eq_min (φ : SignalTemporalLogic.STLFormula)
    (t1 t2 t : ℤ) (s : Signal) (f : ℤ → ℚ)
    (h0 : 0 ≤ t1) (h12 : t1 ≤ t2)
    (hdef : ∀ k, t + t1 ≤ k → k ≤ t + t2 → φ.robustness s k = .ok (f k)) :
    (φ.always t1 t2).robustness s t = .ok (intervalMin f (t + t1) (t + t2)) :=
  always_eq_min_aux φ t1 t2 t s f h12 hdef

theorem always_robustness_eq_min_witness :
    (idLeaf.always 0 2).robustness sigA 1 = .ok (intervalMin (fun k => (k : ℚ)) 1 3) :=
  always_robustness_eq_min idLeaf 0 2 1 sigA (fun k => (k : ℚ))
    (by norm_num) (by norm_num) (fun k _ _ => rfl)

/-- C2: when `0 <= t1 <= t2` and both children's robustness functions
are defined on the indices the evaluation visits (`φ1` on
`[t+t1, t+t2]`, `φ2` on `[t, t+t2]`),
`φ1.until(φ2, t1, t2).robustness(s, t)` equals the maximum over
`tp ∈ [t+t1, t+t2]` of
`min(φ1's value at tp, minimum over `tpp ∈ [t, tp]` of φ2's value)`. -/
theorem until_robustness_eq (φ1 φ2 : SignalTemporalLogic.STLFormula)
    (t1 t2 t : ℤ) (s : Signal) (r1 r2 : ℤ → ℚ)
    (h0 : 0 ≤ t1) (h12 : t1 ≤ t2)
    (hd1 : ∀ k, t + t1 ≤ k → k ≤ t + t2 → φ1.robustness s k = .ok (r1 k))
    (hd2 : ∀ k, t ≤ k → k ≤ t + t2 → φ2.robustness s k = .ok (r2 k)) :
    (φ1.until φ2 t1 t2).robustness s t =
      .ok (intervalMax (fun tp => min (r1 tp) (intervalMin r2 t tp)) (t + t1) (t + t2)) := by
  have hF : ∀ tp ∈ pyRange (t + t1) (t + t2 + 1),
      pyMin2 (φ1.robustness s tp)
        (pyMin ((pyRange t (tp + 1)).map (φ2.robustness s))) =
      Except.ok (min (r1 tp) (intervalMin r2 t tp)) := by
    intro tp htp
    rcases mem_pyRange.mp htp with ⟨htp1, htp2⟩
    have hinner : pyMin ((pyRange t (tp + 1)).map (φ2.robustness s)) =
        .ok (intervalMin r2 t tp) := by
      have hmap2 : (pyRange t (tp + 1)).map (φ2.robustness s) =
          (pyRange t (tp + 1)).map (fun k => Except.ok (r2 k)) := by
        apply List.map_congr_left
        intro k hk
        rcases mem_pyRange.mp hk with ⟨hk1, hk2⟩
        exact hd2 k hk1 (by omega)
      rw [hmap2, pyMin_range r2 (by omega)]
    rw [hd1 tp htp1 (by omega), hinner]
    rfl
  show pyMax ((pyRange (t + t1) (t + t2 + 1)).map _) = _
  rw [List.map_congr_left hF, pyMax_range _ (by omega)]

theorem until_robustness_eq_witness :
    (idLeaf.until constLeaf 0 2).robustness sigA 1 =
      .ok (intervalMax (fun tp => min ((tp : ℚ)) (intervalMin (fun _ => (5 : ℚ)) 1 tp)) 1 3) :=
  until_robustness_eq idLeaf constLeaf 0 2 1 sigA (fun k => (k : ℚ)) (fun _ => (5 : ℚ))
    (by norm_num) (by norm_num) (fun k _ _ => rfl) (fun k _ _ => rfl)

/-- C9: window monotonicity.  For a window `[t1, t2]` contained in
`[t1', t2']`, with the child's robustness defined on all of
`[t+t1', t+t2']`, widening the `always` window can only decrease or
hold its robustness, and widening the `eventually` window can only
increase or hold its robustness. -/
theorem window_monotonicity (φ : SignalTemporalLogic.STLFormula)
    (t1 t2 t1' t2' t : ℤ) (s : Signal) (f : ℤ → ℚ)
    (h0 : 0 ≤ t1') (ha : t1' ≤ t1) (hab : t1 ≤ t2) (hb : t2 ≤ t2')
    (hdef : ∀ k, t + t1' ≤ k → k ≤ t + t2' → φ.robustness s k = .ok (f k)) :
    ((φ.always t1' t2').robustness s t = .ok (intervalMin f (t + t1') (t + t2')) ∧
     (φ.always t1 t2).robustness s t = .ok (intervalMin f (t + t1) (t + t2)) ∧
     intervalMin f (t + t1') (t + t2') ≤ intervalMin f (t + t1) (t + t2)) ∧
    ((φ.eventually t1' t2').robustness s t = .ok (intervalMax f (t + t1') (t + t2')) ∧
     (φ.eventually t1 t2).robustness s t = .ok (intervalMax f (t + t1) (t + t2)) ∧
     intervalMax f (t + t1) (t + t2) ≤ intervalMax f (t + t1') (t + t2')) := by
  refine ⟨⟨?_, ?_, ?_⟩, ⟨?_, ?_, ?_⟩⟩
  · exact always_eq_min_aux φ t1' t2' t s f (by omega) hdef
  · exact always_eq_min_aux φ t1 t2 t s f hab
      (fun k hk1 hk2 => hdef k (by omega) (by omega))
  · exact intervalMin_anti f (by omega) (by omega) (by omega)
  · exact eventually_eq_max_aux φ t1' t2' t s f (by omega) hdef
  · exact eventually_eq_max_aux φ t1 t2 t s f hab
      (fun k hk1 hk2 => hdef k (by omega) (by omega))
  · exact intervalMax_mono f (by omega) (by omega) (by omega)

theorem window_monotonicity_witness :
    ((idLeaf.always 0 3).robustness sigA 0 = .ok (intervalMin (fun k => (k : ℚ)) 0 3) ∧
     (idLeaf.always 1 2).robustness sigA 0 = .ok (intervalMin (fun k => (k : ℚ)) 1 2) ∧
     intervalMin (fun k => (k : ℚ)) 0 3 ≤ intervalMin (fun k => (k : ℚ)) 1 2) ∧
    ((idLeaf.eventually 0 3).robustness sigA 0 = .ok (intervalMax (fun k => (k : ℚ)) 0 3) ∧
     (idLeaf.eventually 1 2).robustness sigA 0 = .ok (intervalMax (fun k => (k : ℚ)) 1 2) ∧
     intervalMax (fun k => (k : ℚ)) 1 2 ≤ intervalMax (fun k => (k : ℚ)) 0 3) :=
  window_monotonicity idLeaf 1 2 0 3 0 sigA (fun k => (k : ℚ))
    (by norm_num) (by norm_num) (by norm_num) (by norm_num) (fun k _ _ => rfl)
